import Mathlib

/-!
Verification of the queue/playback/metadata core of the Music-App repository
(src/V14.py).  Python code is shallowly embedded: Qt widgets are dropped,
stateful methods become explicit state-passing functions, Python floats
become rationals, and background-thread callbacks become ordinary function
applications.  Where a function reads external resources (mutagen tag
parsing, the filesystem, vlc), the resource's observable result is passed
in as an explicit argument.
-/

namespace MusicApp

/-- The Track dataclass of V14.py: identity is the file path; `duration`
(a Python float, seconds) is modelled as a rational. -/
structure Track where
  path : String
  title : String
  artist : String
  album : String
  genre : String
  duration : ℚ
  deriving DecidableEq

/-- Default track used to totalize list indexing that the Python code
only performs under the queue-nonempty / index-in-bounds invariant. -/
def defaultTrack : Track := { path := "", title := "", artist := "", album := "", genre := "", duration := 0 }

instance : Inhabited Track := ⟨defaultTrack⟩

/-- Observable state of the vlc-backed Player object of V14.py:
the repeat flag, the current media position in seconds, whether the
engine is playing, and the path of the loaded media (none = idle). -/
structure PlayerState where
  repeatMode : Bool
  posSeconds : ℚ
  playing : Bool
  loaded : Option String
  deriving DecidableEq

/-- The queue-relevant state of MainWindow: the queue, the current play
index, the player, and the history log written by _log_play (we record
the logged track; the wall-clock timestamp is irrelevant here). -/
structure MWState where
  queue : List Track
  play_index : Nat
  player : PlayerState
  history : List Track
  deriving DecidableEq

/-- MainWindow._play_current: if the queue is nonempty, load and play the
track at the current index and append a history entry (_log_play).
GUI refreshes (_sync_queue_table, lyrics.load_for, labels) are dropped. -/
def _play_current (s : MWState) : MWState :=
  if s.queue.isEmpty then s
  else
    let t := s.queue.getD s.play_index defaultTrack
    { s with
      player := { s.player with loaded := some t.path, playing := true, posSeconds := 0 },
      history := s.history ++ [t] }

/-- MainWindow.next_track: clamp-advance the index and play. -/
def next_track (s : MWState) : MWState :=
  if s.queue.isEmpty then s
  else _play_current { s with play_index := min (s.queue.length - 1) (s.play_index + 1) }

/-- MainWindow.prev_track: if more than 3 seconds into the track, just
seek to 0; otherwise clamp-decrement the index and play. -/
def prev_track (s : MWState) : MWState :=
  if s.queue.isEmpty then s
  else if 3 < s.player.posSeconds then
    { s with player := { s.player with posSeconds := 0 } }
  else _play_current { s with play_index := s.play_index - 1 }

/-- Player._on_end composed with MainWindow._on_track_end: on the engine's
end-of-track event, repeat mode seeks to 0 and resumes play; otherwise the
trackFinished signal runs next_track. -/
def _on_end (s : MWState) : MWState :=
  if s.player.repeatMode then
    { s with player := { s.player with posSeconds := 0, playing := true } }
  else next_track s

/-- The Python generator expression
next(i for i,x in enumerate(allt) if x.path == t.path):
index of the first catalog entry with the given path. -/
def firstIndexWithPath (p : String) : List Track → Option Nat
  | [] => none
  | x :: xs =>
    if x.path = p then some 0
    else (firstIndexWithPath p xs).map (fun i => i + 1)

/-- MainWindow.play_track: rotate the library so t is first (queue =
allt[idx:] + allt[:idx]); if t's path is absent, the queue becomes [t].
Index goes to 0 and the current track is played. -/
def play_track (s : MWState) (allt : List Track) (t : Track) : MWState :=
  let q := match firstIndexWithPath t.path allt with
    | some idx => allt.drop idx ++ allt.take idx
    | none => [t]
  _play_current { s with queue := q, play_index := 0 }

/-- MainWindow._rebuild_queue_from_table: the queue table's rows are read
back (each row's UserRole data; a missing item or missing data is
skipped).  If the recovered list is nonempty it replaces the queue and
the index is clamped; otherwise nothing changes. -/
def _rebuild_queue_from_table (s : MWState) (rows : List (Option Track)) : MWState :=
  let newq := rows.filterMap id
  if newq.isEmpty then s
  else { s with queue := newq, play_index := min s.play_index (newq.length - 1) }

/-! ## History recommender (PlaylistsPane._make_recommended) -/

/-- One entry of my_music_history.json as written by _log_play. -/
structure HistEntry where
  path : String
  title : String
  artist : String
  time : String
  deriving DecidableEq

/-- Increment the count of key a in an association list, keeping
first-encounter insertion order (the behaviour of collections.Counter
built from a list). -/
def bump : List (String × Nat) → String → List (String × Nat)
  | [], a => [(a, 1)]
  | (b, n) :: rest, a =>
    if b = a then (b, n + 1) :: rest else (b, n) :: bump rest a

/-- Counter([d["artist"] for d in data if d.get("artist")]): artist
frequencies in first-encounter order; entries whose artist is falsy
(the empty string) are skipped by the comprehension's filter. -/
def artistCounts (hist : List HistEntry) : List (String × Nat) :=
  hist.foldl (fun acc e => if e.artist = "" then acc else bump acc e.artist) []

/-- Stable descending insertion by count: an element is placed before the
first element whose count does not exceed it, so earlier-encountered
artists precede later ones on ties (the tie behaviour of
Counter.most_common, i.e. heapq.nlargest). -/
def insertDescCount (x : String × Nat) : List (String × Nat) → List (String × Nat)
  | [] => [x]
  | y :: ys => if y.2 ≤ x.2 then x :: y :: ys else y :: insertDescCount x ys

/-- Counter(...).most_common(3): top 3 artists by count, ties broken by
first-encounter order. -/
def most_common3 (hist : List HistEntry) : List (String × Nat) :=
  ((artistCounts hist).foldr insertDescCount []).take 3

/-- The top-3 artist names, in most_common order. -/
def top_artists (hist : List HistEntry) : List String :=
  (most_common3 hist).map Prod.fst

/-- PlaylistsPane._make_recommended's track collection: for each top
artist in order, append every library track by that artist in library
order. -/
def _make_recommended (hist : List HistEntry) (catalog : List Track) : List Track :=
  (top_artists hist).foldl
    (fun acc artist => acc ++ catalog.filter (fun t => decide (t.artist = artist))) []

/-- Modelled from the spec's words for comparison (C3): all catalog
tracks whose artist is one of the top three, in catalog order. -/
def specRecommend (hist : List HistEntry) (catalog : List Track) : List Track :=
  catalog.filter (fun t => decide (t.artist ∈ top_artists hist))

/-! ## Library pane and asynchronous metadata updates -/

/-- The five text cells of a library table row that _update_row writes
(columns 0..4: title, artist, album, genre, duration string). -/
structure LibRow where
  titleText : String
  artistText : String
  albumText : String
  genreText : String
  durText : String
  deriving DecidableEq

/-- The parts of LibraryPane state that _update_row touches: the _tracks
list and the table rows. -/
structure LibraryPaneState where
  tracks : List Track
  tableRows : List LibRow
  deriving DecidableEq

/-- str.split(sep) for a one-character separator, Python semantics:
"".split(":") = [""], "::".split(":") = ["", "", ""]. -/
def splitOnChar (sep : Char) : List Char → List (List Char)
  | [] => [[]]
  | c :: cs =>
    if c = sep then [] :: splitOnChar sep cs
    else
      match splitOnChar sep cs with
      | [] => [[c]]
      | l :: ls => (c :: l) :: ls

/-- Value of a nonempty all-digit string, else none (the success cases of
Python int() that arise here). -/
def digitsVal : List Char → Option Nat
  | [] => none
  | [c] => if c.isDigit then some (c.toNat - '0'.toNat) else none
  | c :: cs =>
    if c.isDigit then
      (digitsVal cs).map (fun n => (c.toNat - '0'.toNat) * 10 ^ cs.length + n)
    else none

/-- Python int(s) restricted to an optional sign followed by digits. -/
def pyInt : List Char → Option Int
  | '-' :: rest => (digitsVal rest).map (fun n => -(n : Int))
  | '+' :: rest => (digitsVal rest).map (fun n => (n : Int))
  | cs => (digitsVal cs).map (fun n => (n : Int))

/-- The duration recovered from the "M:SS" display string in _update_row:
int(dur_str.split(":")[0])*60 + int(dur_str.split(":")[1]), with the bare
except collapsing any failure (missing part, non-integer) to 0.0. -/
def parse_dur_str (s : String) : ℚ :=
  let parts := splitOnChar ':' s.data
  match parts.get? 0, parts.get? 1 with
  | some a, some b =>
    match pyInt a, pyInt b with
    | some x, some y => ((x * 60 + y : Int) : ℚ)
    | _, _ => 0
  | _, _ => 0

/-- LibraryPane._update_row, the main-thread half of the asynchronous
metadata hand-off.  It is keyed by row number: if the row no longer
exists (row >= rowCount) it returns unchanged; otherwise it overwrites
the row's texts and, if the row is also within _tracks, the Track at
that row. -/
def _update_row (s : LibraryPaneState) (row : Nat)
    (title artist album genre dur_str : String) : LibraryPaneState :=
  if s.tableRows.length ≤ row then s
  else
    let s1 := { s with tableRows := s.tableRows.set row ⟨title, artist, album, genre, dur_str⟩ }
    if row < s1.tracks.length then
      let t := s1.tracks.getD row defaultTrack
      let t2 := { t with title := title, artist := artist, album := album, genre := genre,
                         duration := parse_dur_str dur_str }
      { s1 with tracks := s1.tracks.set row t2 }
    else s1

/-! ## Metadata reader (read_metadata) -/

/-- os.path.basename for POSIX paths: everything after the last slash. -/
def basenameChars (cs : List Char) : List Char :=
  ((cs.reverse.takeWhile (fun c => c ≠ '/')).reverse)

/-- The stem part of os.path.splitext: drop the suffix starting at the
last dot, unless every character before that dot is itself a dot (so
".bashrc" keeps its name). -/
def splitextStem (cs : List Char) : List Char :=
  match cs.reverse.findIdx? (fun c => c = '.') with
  | none => cs
  | some rIdx =>
    let dotIdx := cs.length - 1 - rIdx
    let pre := cs.take dotIdx
    if pre.any (fun c => c ≠ '.') then pre else cs

/-- os.path.splitext(os.path.basename(path))[0]. -/
def filename_no_ext (path : String) : String :=
  String.mk (splitextStem (basenameChars path.data))

/-- Remove every occurrence of a nonempty pattern (str.replace with an
empty replacement; left-to-right, non-overlapping).  Fuel is the string
length; each step consumes at least one character. -/
def removeAllAux (pat : List Char) : Nat → List Char → List Char
  | 0, cs => cs
  | _ + 1, [] => []
  | fuel + 1, c :: cs =>
    if pat.isPrefixOf (c :: cs) then removeAllAux pat fuel ((c :: cs).drop pat.length)
    else c :: removeAllAux pat fuel cs

/-- s.replace(pat, "") for a nonempty pattern. -/
def removeAll (pat : String) (cs : List Char) : List Char :=
  if pat.data.isEmpty then cs else removeAllAux pat.data cs.length cs

/-- The decorative-suffix stripping applied to the raw title tag. -/
def stripDecorations (s : String) : String :=
  String.mk (removeAll "(Official Video)" (removeAll "(Animated Video)" (removeAll "(Lyrics)" s.data)))

/-- The tag dictionary EasyID3 exposes; a missing key makes eid.get
return its default. -/
structure EasyID3Tags where
  title : Option String
  artist : Option String
  album : Option String
  genre : Option String
  deriving DecidableEq

/-- read_metadata(path).  External parsing is passed in as arguments:
mp3 = none models MP3(path) raising (outer except), mp3 = some dur
carries float(audio.info.length or 0.0); id3 = none models EasyID3(path)
raising (inner except).  Every branch returns a tuple, so the Python
function never raises to its caller. -/
def read_metadata (path : String) (mp3 : Option ℚ) (id3 : Option EasyID3Tags) :
    String × String × String × String × ℚ :=
  match mp3 with
  | none => (filename_no_ext path, "", "", "", 0)
  | some dur =>
    match id3 with
    | none => (filename_no_ext path, "", "", "", dur)
    | some eid =>
      (stripDecorations (eid.title.getD (filename_no_ext path)),
       eid.artist.getD "Unknown Artist",
       eid.album.getD "",
       eid.genre.getD "",
       dur)

/-! ## Persisted state (_save_state / _load_state) -/

/-- A trackRecord in my_music_state.json, i.e. Track.to_dict's output
(all six keys always present). -/
structure TrackRecord where
  path : String
  title : String
  artist : String
  album : String
  genre : String
  duration : ℚ
  deriving DecidableEq

/-- Track.to_dict. -/
def Track.to_dict (t : Track) : TrackRecord :=
  ⟨t.path, t.title, t.artist, t.album, t.genre, t.duration⟩

/-- Track.from_dict on a record with all keys present. -/
def Track.from_dict (d : TrackRecord) : Track :=
  ⟨d.path, d.title, d.artist, d.album, d.genre, d.duration⟩

/-- The JSON object written by _save_state (playlists keep dict insertion
order, modelled as an association list). -/
structure SavedState where
  folders : List String
  playlists : List (String × List TrackRecord)
  queue : List TrackRecord
  play_index : Nat
  deriving DecidableEq

/-- The persisted application state: MainWindow's folders, the playlists
pane's _pls, the queue and the play index. -/
structure AppState where
  folders : List String
  playlists : List (String × List Track)
  queue : List Track
  play_index : Nat
  deriving DecidableEq

/-- MainWindow._save_state. -/
def _save_state (s : AppState) : SavedState :=
  { folders := s.folders,
    playlists := s.playlists.map (fun p => (p.1, p.2.map Track.to_dict)),
    queue := s.queue.map Track.to_dict,
    play_index := s.play_index }

/-- MainWindow._load_state over the startup state init: a missing file
(none) leaves init; otherwise folders are taken only if nonempty,
playlists are appended via add_playlist, and the queue (with clamped
play_index) is taken only if nonempty.  (library.load's rescan of track
contents is outside this state.) -/
def _load_state (init : AppState) (file : Option SavedState) : AppState :=
  match file with
  | none => init
  | some data =>
    let s1 := if data.folders.isEmpty then init else { init with folders := data.folders }
    let s2 := { s1 with
      playlists := s1.playlists ++ data.playlists.map (fun p => (p.1, p.2.map Track.from_dict)) }
    if data.queue.isEmpty then s2
    else
      { s2 with queue := data.queue.map Track.from_dict,
                play_index := min data.play_index (data.queue.length - 1) }

/-! ## LRC lyrics parsing (class LRC) -/

/-- One match attempt of the pattern (backslash-d means a digit)
bracket d{1,2} colon d{1,2} (dot d{1,2})? bracket at the head of the
character list.  A digit run of length 1 or 2 must be followed by the
delimiter; since any shorter greedy choice would leave a digit next, the
regex succeeds exactly when the maximal digit run has length 1 or 2 and
the delimiter follows, which is what this function checks.  Returns the
(minutes, seconds, centiseconds) groups and the rest of the input. -/
def matchTagAt : List Char → Option ((Nat × Nat × Nat) × List Char)
  | '[' :: r0 =>
    let d1 := r0.takeWhile Char.isDigit
    let r1 := r0.dropWhile Char.isDigit
    if d1.length = 0 ∨ 2 < d1.length then none
    else
      match r1 with
      | ':' :: r2 =>
        let d2 := r2.takeWhile Char.isDigit
        let r3 := r2.dropWhile Char.isDigit
        if d2.length = 0 ∨ 2 < d2.length then none
        else
          match r3 with
          | '.' :: r4 =>
            let d3 := r4.takeWhile Char.isDigit
            let r5 := r4.dropWhile Char.isDigit
            if d3.length = 0 ∨ 2 < d3.length then none
            else
              match r5 with
              | ']' :: r6 =>
                some (((d1.foldl (fun n c => n * 10 + (c.toNat - '0'.toNat)) 0),
                       (d2.foldl (fun n c => n * 10 + (c.toNat - '0'.toNat)) 0),
                       (d3.foldl (fun n c => n * 10 + (c.toNat - '0'.toNat)) 0)), r6)
              | _ => none
          | ']' :: r4 =>
            some (((d1.foldl (fun n c => n * 10 + (c.toNat - '0'.toNat)) 0),
                   (d2.foldl (fun n c => n * 10 + (c.toNat - '0'.toNat)) 0), 0), r4)
          | _ => none
      | _ => none
  | _ => none

/-- time_pat.finditer plus time_pat.sub("") in one left-to-right
non-overlapping scan: the list of matched (mm, ss, cc) tags and the
unmatched characters.  Fuel bounds the recursion; each step consumes at
least one character, so fuel = length is always enough. -/
def scanTagsAux : Nat → List Char → List (Nat × Nat × Nat) × List Char
  | 0, cs => ([], cs)
  | _ + 1, [] => ([], [])
  | fuel + 1, c :: rest =>
    match matchTagAt (c :: rest) with
    | some (t, after) =>
      let p := scanTagsAux fuel after
      (t :: p.1, p.2)
    | none =>
      let p := scanTagsAux fuel rest
      (p.1, c :: p.2)

/-- All timestamp tags of a raw line together with the line with the
tags removed (`time_pat.sub("", raw)`). -/
def scanTags (cs : List Char) : List (Nat × Nat × Nat) × List Char :=
  scanTagsAux cs.length cs

/-- str.splitlines restricted to the newline conventions that occur in
lyrics text (LF, CR, CRLF): no trailing empty line, empty string gives
no lines.  Fuel as in scanTagsAux. -/
def splitlinesAux : Nat → List Char → List (List Char)
  | 0, _ => []
  | _ + 1, [] => []
  | fuel + 1, cs =>
    let line := cs.takeWhile (fun c => !(c = '\n' || c = '\r'))
    let rest := cs.dropWhile (fun c => !(c = '\n' || c = '\r'))
    match rest with
    | [] => [line]
    | '\r' :: '\n' :: rs => line :: splitlinesAux fuel rs
    | _ :: rs => line :: splitlinesAux fuel rs

/-- text.splitlines(). -/
def splitlines (s : String) : List String :=
  (splitlinesAux s.data.length s.data).map String.mk

/-- str.strip() for the whitespace characters Lean's Char.isWhitespace
knows (space, tab, CR, LF) — the ones occurring in LRC lines. -/
def pyStrip (cs : List Char) : List Char :=
  ((cs.dropWhile Char.isWhitespace).reverse.dropWhile Char.isWhitespace).reverse

/-- mm*60 + ss + cs/100 as an exact rational, written over a common
denominator (Rat.divInt) so that it evaluates by kernel reduction;
tagSeconds_eq below proves it equal to the source formula. -/
def tagSeconds (t : Nat × Nat × Nat) : ℚ :=
  Rat.divInt ((t.1 * 60 + t.2.1) * 100 + t.2.2 : Nat) 100

/-- The entries one raw line contributes before sorting: each of its N
tags paired with the tag-stripped, whitespace-stripped text. -/
def lineEntries (raw : String) : List (ℚ × String) :=
  let p := scanTags raw.data
  p.1.map (fun t => (tagSeconds t, String.mk (pyStrip p.2)))

/-- Comparison used by sorted(out, key=lambda x: x[0]). -/
def timeLe (a b : ℚ × String) : Prop := a.1 ≤ b.1

instance : DecidableRel timeLe := fun a b => inferInstanceAs (Decidable (a.1 ≤ b.1))

instance : IsTotal (ℚ × String) timeLe := ⟨fun a b => le_total a.1 b.1⟩

instance : IsTrans (ℚ × String) timeLe := ⟨fun _ _ _ h1 h2 => le_trans h1 h2⟩

/-- Python's sorted is the stable sort; insertion sort on the
non-strict key comparison is exactly that. -/
def sortByTime (l : List (ℚ × String)) : List (ℚ × String) :=
  List.insertionSort timeLe l

/-- LRC.parse: expand every line's tags and sort ascending by time. -/
def LRC.parse (text : String) : List (ℚ × String) :=
  sortByTime ((splitlines text).flatMap lineEntries)

/-! ## Lyrics highlighting (LyricsPanel._tick) -/

/-- The timestamp of entry j (self.lines[j][0]); out-of-range defaults
are never reached under the loop guards. -/
def tsAt (lines : List (ℚ × String)) (j : Nat) : ℚ :=
  (lines.getD j (0, "")).1

/-- The first while loop of _tick:
while i+1 < len(self.lines) and self.lines[i+1][0] <= sec: i += 1.
The index starts at -1 when nothing is highlighted, hence Int.  Fuel =
len(lines) always suffices. -/
def fwdLoop (lines : List (ℚ × String)) (sec : ℚ) : Nat → Int → Int
  | 0, i => i
  | fuel + 1, i =>
    if (i + 1).toNat < lines.length ∧ tsAt lines (i + 1).toNat ≤ sec then
      fwdLoop lines sec fuel (i + 1)
    else i

/-- The second while loop of _tick:
while i > 0 and self.lines[i][0] > sec: i -= 1. -/
def bwdLoop (lines : List (ℚ × String)) (sec : ℚ) : Nat → Int → Int
  | 0, i => i
  | fuel + 1, i =>
    if 0 < i ∧ sec < tsAt lines i.toNat then bwdLoop lines sec fuel (i - 1)
    else i

/-- LyricsPanel._tick's new value of self.idx given current lines, idx
and playback position (the callback's value).  The final guard only
commits an in-range changed index. -/
def tick (lines : List (ℚ × String)) (idx : Int) (sec : ℚ) : Int :=
  if lines.isEmpty then idx
  else
    let i1 := fwdLoop lines sec lines.length idx
    let i2 := bwdLoop lines sec lines.length i1
    if i2 ≠ idx ∧ 0 ≤ i2 ∧ i2 < (lines.length : Int) then i2 else idx

/-- Number of leading entries with timestamp ≤ sec; on a sorted document
this counts all such entries, so countLE - 1 is the index of the last
entry whose timestamp is ≤ sec. -/
def countLE (lines : List (ℚ × String)) (sec : ℚ) : Nat :=
  (lines.takeWhile (fun e => decide (e.1 ≤ sec))).length

/-- Modelled from the spec's words (C9): the index of the last entry
whose timestamp is ≤ the position, -1 if there is none. -/
def lastIndexLE (lines : List (ℚ × String)) (sec : ℚ) : Int :=
  (countLE lines sec : Int) - 1

/-! ## Concrete fixtures used by witnesses and counterexamples -/

/-- A sample track. -/
def tA : Track := { path := "a.mp3", title := "A", artist := "art1", album := "", genre := "", duration := 100 }

/-- A sample track. -/
def tB : Track := { path := "b.mp3", title := "B", artist := "art2", album := "", genre := "", duration := 200 }

/-- A sample track. -/
def tC : Track := { path := "c.mp3", title := "C", artist := "art1", album := "", genre := "", duration := 50 }

/-- A playing state on the last (only) track of the queue, repeat off. -/
def mwLast : MWState :=
  { queue := [tA], play_index := 0,
    player := { repeatMode := false, posSeconds := 100, playing := true, loaded := some "a.mp3" },
    history := [tA] }

/-- A queue of two tracks at index 1, 10 seconds into the track. -/
def mwPrevDeep : MWState :=
  { queue := [tA, tB], play_index := 1,
    player := { repeatMode := false, posSeconds := 10, playing := true, loaded := some "b.mp3" },
    history := [] }

/-- A three-track queue at index 0, at position 0. -/
def mwW : MWState :=
  { queue := [tA, tB, tC], play_index := 0,
    player := { repeatMode := false, posSeconds := 0, playing := true, loaded := some "a.mp3" },
    history := [] }

/-- Library pane right after a rescan that discovered only c.mp3, while a
metadata fetch dispatched for the earlier catalog (whose row 0 was a.mp3,
a path no longer present) is still in flight. -/
def paneAfterRescan : LibraryPaneState :=
  { tracks := [tC], tableRows := [⟨"C", "art1", "", "", ""⟩] }

/-- History with artists A, A, B. -/
def histAAB : List HistEntry :=
  [⟨"", "", "A", ""⟩, ⟨"", "", "A", ""⟩, ⟨"", "", "B", ""⟩]

/-- The spec's recommender example history: artists A,A,B,A,C,C,B. -/
def exampleHist : List HistEntry :=
  [⟨"", "", "A", ""⟩, ⟨"", "", "A", ""⟩, ⟨"", "", "B", ""⟩, ⟨"", "", "A", ""⟩,
   ⟨"", "", "C", ""⟩, ⟨"", "", "C", ""⟩, ⟨"", "", "B", ""⟩]

/-- A catalog track by artist A. -/
def trA : Track := { path := "p2", title := "tA", artist := "A", album := "", genre := "", duration := 0 }

/-- A catalog track by artist B. -/
def trB : Track := { path := "p1", title := "tB", artist := "B", album := "", genre := "", duration := 0 }

/-- Startup state of a machine whose default music folder was detected. -/
def initHome : AppState := { folders := ["Music"], playlists := [], queue := [], play_index := 0 }

/-- An application state whose folders list is empty. -/
def stateNoFolders : AppState := { folders := [], playlists := [], queue := [trA], play_index := 0 }

/-- Startup state with no detected folders. -/
def initEmpty : AppState := { folders := [], playlists := [], queue := [], play_index := 0 }

/-- A fully populated application state. -/
def stateFull : AppState :=
  { folders := ["F"], playlists := [("pl", [trA])], queue := [trA, trB], play_index := 1 }

/-! ## Helper lemmas -/

theorem isEmpty_false_of_ne {α : Type} {l : List α} (h : l ≠ []) : l.isEmpty = false := by
  cases l with
  | nil => exact absurd rfl h
  | cons a as => rfl

theorem play_current_queue (s : MWState) : (_play_current s).queue = s.queue := by
  unfold _play_current
  split <;> rfl

theorem play_current_play_index (s : MWState) : (_play_current s).play_index = s.play_index := by
  unfold _play_current
  split <;> rfl

theorem firstIndexWithPath_of_get :
    ∀ (catalog : List Track) (k : Nat) (t : Track),
      (catalog.map Track.path).Nodup → catalog.get? k = some t →
      firstIndexWithPath t.path catalog = some k := by
  intro catalog
  induction catalog with
  | nil => intro k t _ hk; simp at hk
  | cons x xs ih =>
    intro k t hnd hk
    have hnd2 : x.path ∉ xs.map Track.path ∧ (xs.map Track.path).Nodup := by
      simpa [List.nodup_cons] using hnd
    cases k with
    | zero =>
      have hx : x = t := by simpa using hk
      subst hx
      simp [firstIndexWithPath]
    | succ k =>
      have hk2 : xs.get? k = some t := by simpa using hk
      have ht : t ∈ xs := List.get?_mem hk2
      have hne : x.path ≠ t.path := by
        intro he
        exact hnd2.1 (he ▸ List.mem_map_of_mem Track.path ht)
      simp [firstIndexWithPath, hne, ih k t hnd2.2 hk2]

theorem firstIndexWithPath_of_absent :
    ∀ (catalog : List Track) (p : String), (∀ x ∈ catalog, x.path ≠ p) →
      firstIndexWithPath p catalog = none := by
  intro catalog
  induction catalog with
  | nil => intro p _; rfl
  | cons x xs ih =>
    intro p h
    have hx : x.path ≠ p := h x (by simp)
    simp [firstIndexWithPath, hx, ih p (fun y hy => h y (by simp [hy]))]

/-! ## Claim C4: play_track builds a rotation of the catalog -/

/-- Claim C4 (confirmed): for a catalog with pairwise-distinct paths, if t
is the k-th catalog element then play_track makes the queue
catalog[k:] + catalog[:k] with index 0, and if t's path is absent from
the catalog the queue becomes the singleton [t] with index 0. -/
theorem claim4_play_track (s : MWState) (catalog : List Track) (t : Track) (k : Nat)
    (hnodup : (catalog.map Track.path).Nodup) :
    (catalog.get? k = some t →
      (play_track s catalog t).queue = catalog.drop k ++ catalog.take k
      ∧ (play_track s catalog t).play_index = 0)
    ∧ ((∀ x ∈ catalog, x.path ≠ t.path) →
      (play_track s catalog t).queue = [t]
      ∧ (play_track s catalog t).play_index = 0) := by
  constructor
  · intro hk
    have h1 := firstIndexWithPath_of_get catalog k t hnodup hk
    unfold play_track
    rw [h1]
    exact ⟨by rw [play_current_queue], by rw [play_current_play_index]⟩
  · intro habs
    have h1 := firstIndexWithPath_of_absent catalog t.path habs
    unfold play_track
    rw [h1]
    exact ⟨by rw [play_current_queue], by rw [play_current_play_index]⟩

/-- Witness for C4: in the concrete three-track library, playing tB (the
element at index 1) rotates the catalog behind it. -/
theorem claim4_witness :
    (play_track mwW [tA, tB, tC] tB).queue = [tA, tB, tC].drop 1 ++ [tA, tB, tC].take 1
    ∧ (play_track mwW [tA, tB, tC] tB).play_index = 0 :=
  (claim4_play_track mwW [tA, tB, tC] tB 1 (by decide)).1 (by decide)

/-! ## Claim C5: next/prev index movement -/

theorem next_track_queue (s : MWState) : (next_track s).queue = s.queue := by
  unfold next_track
  split
  · rfl
  · rw [play_current_queue]

theorem next_track_play_index (s : MWState) (h : s.queue ≠ []) :
    (next_track s).play_index = min (s.queue.length - 1) (s.play_index + 1) := by
  unfold next_track
  rw [isEmpty_false_of_ne h]
  simp [play_current_play_index]

theorem next_track_iter (s : MWState) (h : s.queue ≠ []) (hidx : s.play_index < s.queue.length) :
    ∀ k, (next_track^[k] s).queue = s.queue
      ∧ (next_track^[k] s).play_index = min (s.queue.length - 1) (s.play_index + k) := by
  intro k
  induction k with
  | zero =>
    refine ⟨rfl, ?_⟩
    have : s.play_index ≤ s.queue.length - 1 := by omega
    simp [Nat.min_eq_right this]
  | succ k ih =>
    rw [Function.iterate_succ_apply']
    have hq : (next_track^[k] s).queue = s.queue := ih.1
    have hne : (next_track^[k] s).queue ≠ [] := by rw [hq]; exact h
    refine ⟨by rw [next_track_queue, hq], ?_⟩
    rw [next_track_play_index _ hne, hq, ih.2]
    omega

/-- Claim C5 (corrected): next_track moves the index by +1 clamped to
len-1; prev_track moves the index by -1 clamped to 0 only when the
playback position is at most 3 seconds — beyond 3 seconds it merely
seeks to 0 and leaves the index (and everything else) unchanged;
next_track applied len(Q) times from any valid start ends at len(Q)-1;
prev at index 0 keeps index 0. -/
theorem claim5_advance (s : MWState) (h : s.queue ≠ []) (hidx : s.play_index < s.queue.length) :
    ((next_track s).play_index = min (s.queue.length - 1) (s.play_index + 1))
    ∧ (s.player.posSeconds ≤ 3 → (prev_track s).play_index = s.play_index - 1)
    ∧ (3 < s.player.posSeconds →
        prev_track s = { s with player := { s.player with posSeconds := 0 } })
    ∧ ((next_track^[s.queue.length] s).play_index = s.queue.length - 1)
    ∧ (s.play_index = 0 → (prev_track s).play_index = 0) := by
  have hlen : s.queue.length ≠ 0 := by
    intro h0
    exact h (List.length_eq_zero.mp h0)
  refine ⟨next_track_play_index s h, ?_, ?_, ?_, ?_⟩
  · intro hpos
    unfold prev_track
    rw [isEmpty_false_of_ne h]
    rw [if_neg (not_lt.mpr hpos)]
    simp [play_current_play_index]
  · intro hpos
    unfold prev_track
    rw [isEmpty_false_of_ne h]
    simp [if_pos hpos]
  · have := (next_track_iter s h hidx s.queue.length).2
    rw [this]
    omega
  · intro h0
    unfold prev_track
    rw [isEmpty_false_of_ne h]
    by_cases hpos : 3 < s.player.posSeconds
    · rw [if_pos hpos]
      exact h0
    · rw [if_neg hpos]
      simp [play_current_play_index, h0]

/-- Counterexample for C5: with the queue at index 1 and the playback
position 10s into the track, prev_track does not move the index by -1
(it restarts the track instead), contradicting the claim that
advance(-1) always moves the index by exactly -1 clamped. -/
theorem claim5_counterexample :
    (prev_track mwPrevDeep).play_index ≠ mwPrevDeep.play_index - 1 := by decide

/-- Witness for C5 at a concrete state. -/
theorem claim5_witness :
    (next_track mwW).play_index = min (mwW.queue.length - 1) (mwW.play_index + 1) :=
  (claim5_advance mwW (by decide) (by decide)).1

/-! ## Claim C6: rebuild from the externally reordered table -/

/-- Claim C6 (confirmed): rebuilding from an externally supplied order is
a no-op when that order is empty, and otherwise replaces the queue with
exactly the supplied tracks, clamps the current index to the new bounds,
and touches nothing else. -/
theorem claim6_rebuild (s : MWState) (rows : List (Option Track)) (_h : s.queue ≠ []) :
    (rows.filterMap id = [] → _rebuild_queue_from_table s rows = s)
    ∧ (rows.filterMap id ≠ [] →
        (_rebuild_queue_from_table s rows).queue = rows.filterMap id
        ∧ (_rebuild_queue_from_table s rows).play_index
            = min s.play_index ((rows.filterMap id).length - 1)
        ∧ (_rebuild_queue_from_table s rows).player = s.player
        ∧ (_rebuild_queue_from_table s rows).history = s.history) := by
  constructor
  · intro h0
    unfold _rebuild_queue_from_table
    rw [h0]
    rfl
  · intro h0
    unfold _rebuild_queue_from_table
    simp [isEmpty_false_of_ne h0]

/-- Witness for C6: the empty reorder leaves the concrete state alone. -/
theorem claim6_witness : _rebuild_queue_from_table mwW [] = mwW :=
  (claim6_rebuild mwW [] (by decide)).1 rfl

/-! ## Claim C7: read_metadata failure behaviour -/

/-- Claim C7 (corrected): read_metadata is total (never raises) and on a
container (MP3) parse failure returns title = filename-without-extension,
all other text fields empty and duration 0; but when only the tag
(EasyID3) read fails, the already-parsed duration is kept, so the
"duration 0 on any parse failure" of the original claim holds only for
the container failure. -/
theorem claim7_read_metadata (path : String) (dur : ℚ) (id3 : Option EasyID3Tags) :
    read_metadata path none id3 = (filename_no_ext path, "", "", "", 0)
    ∧ read_metadata path (some dur) none = (filename_no_ext path, "", "", "", dur) :=
  ⟨rfl, rfl⟩

/-- Counterexample for C7: for a/song.mp3 whose MP3 header parses (length
200s) but whose ID3 tags fail to parse — a parse failure — the result is
not (stem, "", "", "", 0): the duration returned is 200, not 0. -/
theorem claim7_counterexample :
    read_metadata "a/song.mp3" (some 200) none ≠ ("song", "", "", "", (0 : ℚ)) := by decide

/-! ## Claim C1: end-of-track handling -/

/-- Claim C1 (corrected): on the engine's end-of-track event, repeat mode
seeks to 0 and resumes play of the same track; otherwise, when a next
track exists the index advances by one and that track is loaded and
played; but when the current track is the LAST one, the index stays at
the last position and the last track is reloaded and played again (a new
history entry is logged) — the controller does not transition to a
paused state. -/
theorem claim1_end_of_track (s : MWState) :
    (s.player.repeatMode = true →
      _on_end s = { s with player := { s.player with posSeconds := 0, playing := true } })
    ∧ (s.player.repeatMode = false → s.play_index + 1 < s.queue.length →
        (_on_end s).play_index = s.play_index + 1
        ∧ (_on_end s).player.loaded = some ((s.queue.getD (s.play_index + 1) defaultTrack).path)
        ∧ (_on_end s).player.playing = true)
    ∧ (s.player.repeatMode = false → s.queue ≠ [] → s.play_index + 1 = s.queue.length →
        (_on_end s).play_index = s.play_index
        ∧ (_on_end s).player.playing = true
        ∧ (_on_end s).history = s.history ++ [s.queue.getD s.play_index defaultTrack]) := by
  refine ⟨?_, ?_, ?_⟩
  · intro hrep
    simp [_on_end, hrep]
  · intro hrep h2
    have hq : s.queue ≠ [] := by
      intro he
      rw [he] at h2
      simp at h2
    have hmin : min (s.queue.length - 1) (s.play_index + 1) = s.play_index + 1 := by omega
    simp [_on_end, hrep, next_track, isEmpty_false_of_ne hq, _play_current, hmin]
  · intro hrep hq hlast
    have hmin : min (s.queue.length - 1) (s.play_index + 1) = s.play_index := by omega
    simp [_on_end, hrep, next_track, isEmpty_false_of_ne hq, _play_current, hmin]

/-- Counterexample for C1: at the last (only) track with repeat off, the
end-of-track event leaves the player PLAYING and appends a fresh history
entry (it replays the last track), contradicting the claimed transition
to loaded-paused "rather than playing anything". -/
theorem claim1_counterexample :
    (_on_end mwLast).player.playing = true
    ∧ (_on_end mwLast).history.length = mwLast.history.length + 1 := by decide

/-- Witness for C1 at a concrete state with a next track available. -/
theorem claim1_witness :
    (_on_end mwW).play_index = mwW.play_index + 1
    ∧ (_on_end mwW).player.loaded = some ((mwW.queue.getD (mwW.play_index + 1) defaultTrack).path)
    ∧ (_on_end mwW).player.playing = true :=
  (claim1_end_of_track mwW).2.1 (by decide) (by decide)

/-! ## Claim C2: stale asynchronous metadata results -/

/-- Claim C2 (corrected): a late metadata result is dropped (exact no-op,
and the total function never throws) precisely when its ROW INDEX is
beyond the current table's row count; the update is keyed by row index,
not by path identity, so a late result whose row is still in range is
applied to whatever entry now occupies that row.  Row/track counts are
never changed by an update. -/
theorem claim2_stale_update (s : LibraryPaneState) (row : Nat)
    (title artist album genre dur_str : String) :
    (s.tableRows.length ≤ row → _update_row s row title artist album genre dur_str = s)
    ∧ (_update_row s row title artist album genre dur_str).tracks.length = s.tracks.length
    ∧ (_update_row s row title artist album genre dur_str).tableRows.length
        = s.tableRows.length := by
  refine ⟨?_, ?_, ?_⟩
  · intro hge
    simp [_update_row, if_pos hge]
  · by_cases h1 : s.tableRows.length ≤ row
    · simp [_update_row, if_pos h1]
    · by_cases h2 : row < s.tracks.length
      · simp [_update_row, h1, h2]
      · simp [_update_row, h1, h2]
  · by_cases h1 : s.tableRows.length ≤ row
    · simp [_update_row, if_pos h1]
    · by_cases h2 : row < s.tracks.length
      · simp [_update_row, h1, h2]
      · simp [_update_row, h1, h2]

/-- Counterexample for C2: the library was rescanned, removing a.mp3;
row 0 now holds c.mp3's track.  Applying the in-flight result of a.mp3's
metadata fetch (dispatched for the old row 0) is NOT a no-op: it
overwrites the surviving entry, because the update is identified by row
number, not by stable path identity. -/
theorem claim2_counterexample :
    (_update_row paneAfterRescan 0 "A" "art1" "" "" "1:40").tracks
      ≠ paneAfterRescan.tracks := by decide

/-- Witness for C2: a late result whose row is out of range is dropped. -/
theorem claim2_witness :
    _update_row paneAfterRescan 5 "A" "art1" "" "" "1:40" = paneAfterRescan :=
  (claim2_stale_update paneAfterRescan 5 "A" "art1" "" "" "1:40").1 (by decide)

/-! ## Claim C10: persisted-state round trip -/

theorem from_to_dict (t : Track) : Track.from_dict (Track.to_dict t) = t := rfl

theorem map_comp_from_to (l : List Track) : l.map (Track.from_dict ∘ Track.to_dict) = l := by
  induction l with
  | nil => rfl
  | cons a l ih => simp only [List.map_cons, Function.comp_apply, from_to_dict, ih]

theorem map_pl_round_comp (l : List (String × List Track)) :
    l.map ((fun p => (p.1, p.2.map Track.from_dict))
            ∘ (fun p => (p.1, p.2.map Track.to_dict))) = l := by
  induction l with
  | nil => rfl
  | cons a l ih =>
    simp only [List.map_cons, Function.comp_apply, List.map_map, map_comp_from_to, ih,
      Prod.mk.eta]

/-- Claim C10 (corrected): starting from a startup state with empty
playlists, empty queue and index 0, saving then loading reproduces the
folders, playlists, queue and play index — PROVIDED the saved folders
list is nonempty (or no default folders were detected at startup, since
an empty saved folders list is ignored in favour of the startup
defaults) and the play index is in bounds (0 for an empty queue).  A
missing state file leaves the startup state unchanged. -/
theorem claim10_round_trip (init s : AppState)
    (hpl : init.playlists = []) (hq : init.queue = []) (hpi : init.play_index = 0)
    (hfold : s.folders ≠ [] ∨ init.folders = [])
    (hidx : (s.queue = [] ∧ s.play_index = 0) ∨ s.play_index < s.queue.length) :
    _load_state init (some (_save_state s)) = s ∧ _load_state init none = init := by
  refine ⟨?_, rfl⟩
  obtain ⟨f0, p0, q0, i0⟩ := init
  obtain ⟨f1, p1, q1, i1⟩ := s
  simp only at hpl hq hpi hfold hidx
  subst hpl hq hpi
  unfold _save_state _load_state
  simp only
  cases q1 with
  | nil =>
    have hi1 : i1 = 0 := by
      rcases hidx with ⟨_, h0⟩ | hlt
      · exact h0
      · simp at hlt
    subst hi1
    cases f1 with
    | nil =>
      have hf0 : f0 = [] := by
        rcases hfold with hne | he
        · exact absurd rfl hne
        · exact he
      subst hf0
      simp [map_pl_round_comp]
    | cons g gs =>
      simp [map_pl_round_comp]
  | cons a as =>
    have hlt : i1 < (a :: as).length := by
      rcases hidx with ⟨hq1, _⟩ | hlt
      · exact absurd hq1 (by simp)
      · exact hlt
    have hlt2 : i1 ≤ as.length := by
      have h3 : i1 < as.length + 1 := by simpa using hlt
      omega
    have hmin : min i1 ((a :: as).length - 1) = i1 := by
      simp
      omega
    cases f1 with
    | nil =>
      have hf0 : f0 = [] := by
        rcases hfold with hne | he
        · exact absurd rfl hne
        · exact he
      subst hf0
      simp [map_pl_round_comp, map_comp_from_to, from_to_dict, hmin, hlt2]
    | cons g gs =>
      simp [map_pl_round_comp, map_comp_from_to, from_to_dict, hmin, hlt2]

/-- Counterexample for C10: on a machine whose startup detected a default
music folder, saving a state whose folders list is empty and loading it
back does NOT reproduce the folders list — the empty saved list is
ignored and the startup default survives. -/
theorem claim10_counterexample :
    (_load_state initHome (some (_save_state stateNoFolders))).folders
      ≠ stateNoFolders.folders := by decide

/-- Witness for C10 on concrete states. -/
theorem claim10_witness :
    _load_state initEmpty (some (_save_state stateFull)) = stateFull
    ∧ _load_state initEmpty none = initEmpty :=
  claim10_round_trip initEmpty stateFull rfl rfl rfl (Or.inl (by decide)) (Or.inr (by decide))

/-! ## Claim C3: history recommender -/

theorem foldl_append_eq_flatMap {α β : Type} (f : α → List β) :
    ∀ (l : List α) (init : List β),
      l.foldl (fun acc a => acc ++ f a) init = init ++ l.flatMap f := by
  intro l
  induction l with
  | nil => intro init; simp
  | cons a l ih => intro init; simp [ih, List.append_assoc]

/-- Claim C3 (corrected): the recommender counts artist frequency over
history entries with a nonempty artist, takes the top three by count
with ties broken by first-encounter order (verified on the spec's
example A,A,B,A,C,C,B giving A,B,C), and returns exactly the catalog
tracks whose artist is among those three — but GROUPED by top artist in
top order (all of the most-played artist's tracks in catalog order, then
the next artist's, then the third's), not in global catalog order.  No
history gives an empty result. -/
theorem claim3_recommend (hist : List HistEntry) (catalog : List Track) :
    _make_recommended hist catalog
      = (top_artists hist).flatMap (fun a => catalog.filter (fun t => decide (t.artist = a)))
    ∧ (∀ t : Track,
        t ∈ _make_recommended hist catalog ↔ t ∈ catalog ∧ t.artist ∈ top_artists hist)
    ∧ (top_artists hist).length ≤ 3
    ∧ _make_recommended [] catalog = []
    ∧ top_artists exampleHist = ["A", "B", "C"] := by
  have hflat :
      _make_recommended hist catalog
        = (top_artists hist).flatMap (fun a => catalog.filter (fun t => decide (t.artist = a))) := by
    unfold _make_recommended
    rw [foldl_append_eq_flatMap]
    simp
  refine ⟨hflat, ?_, ?_, rfl, by decide⟩
  · intro t
    rw [hflat]
    simp only [List.mem_flatMap, List.mem_filter, decide_eq_true_eq]
    constructor
    · rintro ⟨a, ha, ht, he⟩
      exact ⟨ht, he ▸ ha⟩
    · rintro ⟨ht, ha⟩
      exact ⟨t.artist, ha, ht, rfl⟩
  · have : (top_artists hist).length = (most_common3 hist).length := by
      simp [top_artists]
    rw [this]
    unfold most_common3
    have := List.length_take_le 3 ((artistCounts hist).foldr insertDescCount [])
    omega

/-- Counterexample for C3: with history artists [A,A,B] and a catalog
whose order is [trB, trA], the code returns [trA, trB] (grouped by top
artist) while the claimed "in catalog order" result is [trB, trA]. -/
theorem claim3_counterexample :
    _make_recommended histAAB [trB, trA] ≠ specRecommend histAAB [trB, trA] := by decide

/-! ## Claim C8: LRC parsing -/

/-- tagSeconds is exactly the source's mm*60 + ss + cs/100. -/
theorem tagSeconds_eq (t : Nat × Nat × Nat) :
    tagSeconds t = ((t.1 * 60 + t.2.1 : ℕ) : ℚ) + (t.2.2 : ℚ) / 100 := by
  unfold tagSeconds
  rw [Rat.divInt_eq_div]
  push_cast
  ring

/-- Claim C8 (confirmed): the spec's example "[00:01.50][00:05]Hello"
parses to exactly (1.5,"Hello") then (5,"Hello") — Rat.divInt 3 2 is the
rational 1.5; for every input the result is sorted ascending by
timestamp and is a permutation of the per-line expansion, in which a
line with N tags contributes exactly N entries, all sharing the line's
tag-stripped text, and a line with no tag contributes nothing. -/
theorem claim8_lrc_parse :
    LRC.parse "[00:01.50][00:05]Hello" = [(Rat.divInt 3 2, "Hello"), ((5 : ℚ), "Hello")]
    ∧ Rat.divInt 3 2 = (1.5 : ℚ)
    ∧ (∀ text : String, List.Pairwise timeLe (LRC.parse text))
    ∧ (∀ text : String, (LRC.parse text).Perm ((splitlines text).flatMap lineEntries))
    ∧ (∀ raw : String, (lineEntries raw).length = (scanTags raw.data).1.length)
    ∧ (∀ raw : String, ∀ e ∈ lineEntries raw, e.2 = String.mk (pyStrip (scanTags raw.data).2))
    ∧ (∀ raw : String, (scanTags raw.data).1 = [] → lineEntries raw = []) := by
  refine ⟨by decide, ?_, ?_, ?_, ?_, ?_, ?_⟩
  · rw [Rat.divInt_eq_div]
    norm_num
  · intro text
    exact List.sorted_insertionSort timeLe _
  · intro text
    exact List.perm_insertionSort timeLe _
  · intro raw
    simp [lineEntries]
  · intro raw e he
    simp only [lineEntries, List.mem_map] at he
    obtain ⟨t, _, rfl⟩ := he
    rfl
  · intro raw h
    simp [lineEntries, h]

/-- Witness for C8: a line without any timestamp tag expands to no
entries. -/
theorem claim8_witness : lineEntries "plain line" = [] :=
  claim8_lrc_parse.2.2.2.2.2.2 "plain line" (by decide)

/-! ## Claim C9: the lyrics highlight tick -/

theorem countLE_cons (x : ℚ × String) (xs : List (ℚ × String)) (sec : ℚ) :
    countLE (x :: xs) sec = if x.1 ≤ sec then countLE xs sec + 1 else 0 := by
  unfold countLE
  by_cases h : x.1 ≤ sec
  · simp [List.takeWhile_cons, h]
  · simp [List.takeWhile_cons, h]

theorem countLE_le_length (lines : List (ℚ × String)) (sec : ℚ) :
    countLE lines sec ≤ lines.length := by
  induction lines with
  | nil => simp [countLE]
  | cons x xs ih =>
    rw [countLE_cons]
    by_cases h : x.1 ≤ sec
    · rw [if_pos h]
      simp only [List.length_cons]
      omega
    · rw [if_neg h]
      simp

theorem getD_mem_of_lt {α : Type} (l : List α) (d : α) :
    ∀ j, j < l.length → l.getD j d ∈ l := by
  induction l with
  | nil => intro j hj; simp at hj
  | cons a as ih =>
    intro j hj
    cases j with
    | zero => simp
    | succ j =>
      have h1 := ih j (by simpa using hj)
      have h2 : (a :: as).getD (j + 1) d = as.getD j d := rfl
      rw [h2]
      exact List.mem_cons_of_mem a h1

/-- On a sorted document, an entry's timestamp is ≤ sec exactly when its
index lies below the count of the leading ≤-sec entries. -/
theorem tsAt_le_iff (sec : ℚ) :
    ∀ (lines : List (ℚ × String)), List.Pairwise timeLe lines →
      ∀ j, j < lines.length → (tsAt lines j ≤ sec ↔ j < countLE lines sec) := by
  intro lines
  induction lines with
  | nil => intro _ j hj; simp at hj
  | cons x xs ih =>
    intro hp j hj
    have hx : ∀ y ∈ xs, x.1 ≤ y.1 := (List.pairwise_cons.mp hp).1
    have hxs := (List.pairwise_cons.mp hp).2
    rw [countLE_cons]
    cases j with
    | zero =>
      have h0 : tsAt (x :: xs) 0 = x.1 := rfl
      rw [h0]
      by_cases h : x.1 ≤ sec
      · simp [h]
      · simp [h]
    | succ j =>
      have hts : tsAt (x :: xs) (j + 1) = tsAt xs j := rfl
      have hj2 : j < xs.length := by simpa using hj
      rw [hts]
      by_cases h : x.1 ≤ sec
      · rw [if_pos h, ih hxs j hj2]
        omega
      · rw [if_neg h]
        constructor
        · intro hle
          have hmem := getD_mem_of_lt xs (0, "") j hj2
          exact absurd (le_trans (hx _ hmem) hle) h
        · intro h0
          exact absurd h0 (by omega)

/-- The forward loop's guard holds exactly when the next index is still
below the ≤-sec prefix count. -/
theorem fwd_cond_iff (lines : List (ℚ × String)) (sec : ℚ)
    (hsort : List.Pairwise timeLe lines) (i : Int) (hi : -1 ≤ i) :
    ((i + 1).toNat < lines.length ∧ tsAt lines (i + 1).toNat ≤ sec)
      ↔ i + 1 < (countLE lines sec : Int) := by
  have htn : ((i + 1).toNat : Int) = i + 1 := Int.toNat_of_nonneg (by omega)
  constructor
  · rintro ⟨h1, h2⟩
    have h3 := (tsAt_le_iff sec lines hsort _ h1).mp h2
    omega
  · intro h
    have hK := countLE_le_length lines sec
    have h1 : (i + 1).toNat < lines.length := by omega
    have h2 : (i + 1).toNat < countLE lines sec := by omega
    exact ⟨h1, (tsAt_le_iff sec lines hsort _ h1).mpr h2⟩

theorem fwdLoop_spec (lines : List (ℚ × String)) (sec : ℚ)
    (hsort : List.Pairwise timeLe lines) :
    ∀ (fuel : Nat) (i : Int), -1 ≤ i → (countLE lines sec : Int) ≤ i + 1 + fuel →
      fwdLoop lines sec fuel i = max i ((countLE lines sec : Int) - 1) := by
  intro fuel
  induction fuel with
  | zero =>
    intro i _ hf
    have h1 : (countLE lines sec : Int) - 1 ≤ i := by omega
    simp [fwdLoop, max_eq_left h1]
  | succ fuel ih =>
    intro i hi hf
    unfold fwdLoop
    by_cases hc : ((i + 1).toNat < lines.length ∧ tsAt lines (i + 1).toNat ≤ sec)
    · rw [if_pos hc]
      have hlt : i + 1 < (countLE lines sec : Int) := (fwd_cond_iff lines sec hsort i hi).mp hc
      rw [ih (i + 1) (by omega) (by omega)]
      rw [max_eq_right (by omega : i + 1 ≤ (countLE lines sec : Int) - 1),
          max_eq_right (by omega : i ≤ (countLE lines sec : Int) - 1)]
    · rw [if_neg hc]
      have hge : (countLE lines sec : Int) ≤ i + 1 := by
        by_contra hlt
        exact hc ((fwd_cond_iff lines sec hsort i hi).mpr (by omega))
      rw [max_eq_left (by omega)]

/-- The backward loop's guard holds exactly when the index is positive
and at or above the ≤-sec prefix count. -/
theorem bwd_cond_iff (lines : List (ℚ × String)) (sec : ℚ)
    (hsort : List.Pairwise timeLe lines) (i : Int) (h0 : 0 ≤ i)
    (hlen : i < (lines.length : Int)) :
    (0 < i ∧ sec < tsAt lines i.toNat) ↔ (0 < i ∧ (countLE lines sec : Int) ≤ i) := by
  have hn : i.toNat < lines.length := by omega
  have hiff := tsAt_le_iff sec lines hsort i.toNat hn
  constructor
  · rintro ⟨h1, h2⟩
    refine ⟨h1, ?_⟩
    by_contra hK
    have h3 : i.toNat < countLE lines sec := by omega
    exact absurd (hiff.mpr h3) (not_le.mpr h2)
  · rintro ⟨h1, hK⟩
    refine ⟨h1, ?_⟩
    by_contra h2
    have h3 := hiff.mp (not_lt.mp h2)
    omega

theorem bwdLoop_nonpos (lines : List (ℚ × String)) (sec : ℚ) :
    ∀ (fuel : Nat) (i : Int), i ≤ 0 → bwdLoop lines sec fuel i = i := by
  intro fuel
  cases fuel with
  | zero => intro i _; rfl
  | succ fuel =>
    intro i hi
    unfold bwdLoop
    rw [if_neg]
    rintro ⟨h1, _⟩
    omega

theorem bwdLoop_spec (lines : List (ℚ × String)) (sec : ℚ)
    (hsort : List.Pairwise timeLe lines) :
    ∀ (fuel : Nat) (i : Int), 0 ≤ i → i < (lines.length : Int) → i ≤ (fuel : Int) →
      bwdLoop lines sec fuel i
        = if (countLE lines sec : Int) ≤ i then
            (if countLE lines sec = 0 then 0 else (countLE lines sec : Int) - 1)
          else i := by
  intro fuel
  induction fuel with
  | zero =>
    intro i h0 _ hf
    have hi0 : i = 0 := by omega
    subst hi0
    have hb : bwdLoop lines sec 0 0 = 0 := rfl
    rw [hb]
    split_ifs <;> omega
  | succ fuel ih =>
    intro i h0 hlen hf
    unfold bwdLoop
    by_cases hc : (0 < i ∧ sec < tsAt lines i.toNat)
    · rw [if_pos hc]
      have hc2 := (bwd_cond_iff lines sec hsort i h0 hlen).mp hc
      rw [ih (i - 1) (by omega) (by omega) (by omega)]
      split_ifs <;> omega
    · rw [if_neg hc]
      by_cases hi0 : i = 0
      · subst hi0
        split_ifs <;> omega
      · have hgt : ¬ ((countLE lines sec : Int) ≤ i) := by
          intro hK
          exact hc ((bwd_cond_iff lines sec hsort i h0 hlen).mpr ⟨by omega, hK⟩)
        rw [if_neg hgt]

/-- Claim C9 (corrected): for a sorted lyrics document and a previous
index in [-1, len), the tick computes the index of the LAST entry whose
timestamp is ≤ the position whenever such an entry exists (hence the
highlight is monotone in the position and follows seeks); but when NO
entry's timestamp is ≤ the position, the index becomes 0 (the first
line stays/becomes highlighted) if a line was previously active, and
stays -1 (no highlight) only if no line was ever active. -/
theorem claim9_tick (lines : List (ℚ × String)) (idx : Int) (sec : ℚ)
    (hsort : List.Pairwise timeLe lines) (hlo : -1 ≤ idx)
    (hhi : idx < (lines.length : Int)) :
    (0 < countLE lines sec → tick lines idx sec = lastIndexLE lines sec)
    ∧ (countLE lines sec = 0 → tick lines idx sec = if 0 ≤ idx then 0 else idx) := by
  by_cases hemp : lines.isEmpty = true
  · have hnil : lines = [] := by
      cases lines with
      | nil => rfl
      | cons a as => simp at hemp
    subst hnil
    constructor
    · intro h0
      simp [countLE] at h0
    · intro _
      have hidx : idx = -1 := by
        simp at hhi
        omega
      subst hidx
      have ht : tick [] (-1) sec = -1 := rfl
      rw [ht, if_neg (by omega : ¬ (0 : Int) ≤ -1)]
  · have hne : lines.isEmpty = false := by
      cases h : lines.isEmpty
      · rfl
      · exact absurd h hemp
    have hlenpos : 0 < lines.length := by
      cases lines with
      | nil => simp at hne
      | cons a as => simp
    have hK_le := countLE_le_length lines sec
    have hfw := fwdLoop_spec lines sec hsort lines.length idx hlo (by omega)
    constructor
    · intro hKpos
      have hi1lo : 0 ≤ max idx ((countLE lines sec : Int) - 1) := by omega
      have hbw := bwdLoop_spec lines sec hsort lines.length
        (max idx ((countLE lines sec : Int) - 1)) hi1lo (by omega) (by omega)
      have hi2 : bwdLoop lines sec lines.length (max idx ((countLE lines sec : Int) - 1))
          = (countLE lines sec : Int) - 1 := by
        rw [hbw]
        split_ifs <;> omega
      simp only [tick, hne, Bool.false_eq_true, if_false]
      rw [hfw, hi2]
      unfold lastIndexLE
      by_cases heq : ((countLE lines sec : Int) - 1) = idx
      · rw [if_neg (by rintro ⟨h, _⟩; exact h heq)]
        omega
      · rw [if_pos ⟨heq, by omega, by omega⟩]
    · intro hK0
      have hi1 : max idx ((countLE lines sec : Int) - 1) = idx := by omega
      by_cases hidx0 : 0 ≤ idx
      · have hbw := bwdLoop_spec lines sec hsort lines.length idx hidx0 hhi (by omega)
        have hi2 : bwdLoop lines sec lines.length idx = 0 := by
          rw [hbw]
          split_ifs <;> omega
        simp only [tick, hne, Bool.false_eq_true, if_false]
        rw [hfw, hi1, hi2, if_pos hidx0]
        by_cases h00 : idx = 0
        · rw [if_neg (by rintro ⟨h, _⟩; exact h h00.symm)]
          omega
        · rw [if_pos ⟨by omega, by omega, by omega⟩]
      · have hidxm : idx = -1 := by omega
        subst hidxm
        have hi2 := bwdLoop_nonpos lines sec lines.length (-1) (by omega)
        simp only [tick, hne, Bool.false_eq_true, if_false]
        rw [hfw, hi1, hi2]
        rw [if_neg (by rintro ⟨h, _⟩; exact h rfl)]
        rw [if_neg (by omega : ¬ (0 : Int) ≤ -1)]

/-- Counterexample for C9: for the sorted document with timestamps 10
and 20, previously highlighted index 1, after a seek back to position 5
the tick highlights index 0 even though NO entry has timestamp ≤ 5 —
the highlighted line is not "the last entry whose timestamp ≤ position"
(none exists). -/
theorem claim9_counterexample :
    tick [((10 : ℚ), "a"), ((20 : ℚ), "b")] 1 5 = 0
    ∧ ¬ tsAt [((10 : ℚ), "a"), ((20 : ℚ), "b")] 0 ≤ 5 := by decide

/-- Witness for C9 at a concrete document and position. -/
theorem claim9_witness :
    tick [((1 : ℚ), "x"), ((2 : ℚ), "y")] 0 5
      = lastIndexLE [((1 : ℚ), "x"), ((2 : ℚ), "y")] 5 :=
  (claim9_tick [((1 : ℚ), "x"), ((2 : ℚ), "y")] 0 5 (by decide) (by decide) (by decide)).1
    (by decide)

end MusicApp
